import Mathlib

/-!
Verification of the emo Kademlia-style DHT core.

This file gives a shallow embedding, in Lean 4, of the parts of the Go
source that the specification's claims are about, and proves (or refutes)
each claim against that embedding.

Modelling conventions, used throughout:

* Machine bytes are `Nat` values (< 256 on real inputs); node ids and keys
  are `List Nat` of length `KEY_BYTES`.
* `time.Time` / `time.Duration` values are `Nat` nanosecond counts; the Go
  zero `time.Time` is `0`, and `t.After(u)` is `t > u`.
* Go maps keyed by a 64-bit `maphash` of some byte string are modelled as
  association lists / membership lists keyed by the byte string itself,
  i.e. the hash is treated as injective (the source itself notes that
  collisions are not handled).
* Fallible array accesses (`a[i]` on a Go slice, nil-pointer dereference)
  are modelled in the `Option` monad: `none` is a runtime panic.
* Effectful calls with an external result (network latency measurement)
  are modelled by an explicit oracle function parameter.
-/

namespace Emo

/-! ### Constants (src/unnamed part with the K/ALPHA block) -/

/-- K: number of nodes in a bucket, and the replication factor. -/
def K : Nat := 20

/-- ALPHA: number of nodes to query in parallel. -/
def ALPHA : Nat := 3

/-- KEY_BITS: number of bits in a key. -/
def KEY_BITS : Nat := 256

/-- KEY_BYTES: number of bytes in a key. -/
def KEY_BYTES : Nat := KEY_BITS / 8

/-- VALUE_BYTES: maximum size of a stored value (32 KiB). -/
def VALUE_BYTES : Nat := 32 * 1024

/-! ### Identity and XOR metric (src/unnamed/part_004) -/

/-- Embeds Go `bits.LeadingZeros8`: leading zero bits of a byte,
written as a comparison chain so it reduces in the kernel. -/
def leadingZeros8 (b : Nat) : Nat :=
  if b = 0 then 8
  else if b < 2 then 7
  else if b < 4 then 6
  else if b < 8 then 5
  else if b < 16 then 4
  else if b < 32 then 3
  else if b < 64 then 2
  else if b < 128 then 1
  else 0

/-- Loop body of `distance`: walk the bytes of both ids in step; a zero
xor-byte contributes 8 prefix bits and the walk continues, the first
non-zero xor-byte contributes its leading zeros and stops the walk. -/
def distAux : List Nat → List Nat → Nat
  | a :: as, b :: bs =>
    let d := a ^^^ b
    if d = 0 then 8 + distAux as bs else leadingZeros8 d
  | _, _ => 0

/-- Embeds `distance(localID, targetID)` from src/unnamed/part_004: the
number of leading common bits of the two ids. -/
def distance (localID targetID : List Nat) : Nat :=
  distAux localID targetID

/-- Embeds `bucketID(localID, targetID)` from src/unnamed/part_004. -/
def bucketID (localID targetID : List Nat) : Nat :=
  let pfx := distance localID targetID
  let d := KEY_BITS - pfx
  if d = 0 then d else d - 1

/-! ### Nodes and buckets (src/unnamed/part_006, src/bucket.go) -/

/-- Embeds the `node` struct. The UDP address is opaque to every claim and
is carried as a plain `Nat`. -/
structure Node where
  id : List Nat
  address : Nat
  seen : Nat
  pending : Nat
  latency : Nat
  failCount : Nat
  testMode : Bool
deriving DecidableEq, Repr

/-- Embeds the `bucket` struct: `nodes` is the fixed-size Go array of node
pointers (`none` is a nil pointer), `size` counts the live prefix. -/
structure Bucket where
  size : Nat
  expiry : Nat
  nodes : List (Option Node)
  cache : List Node
deriving DecidableEq, Repr

/-- A fresh bucket as allocated by `newRoutingTable`: a `K`-element array
of nil node pointers; `expiry` is never assigned there and stays at the Go
zero value. -/
def newBucket : Bucket :=
  { size := 0, expiry := 0, nodes := List.replicate K none, cache := [] }

/-- Embeds the Go two-argument `copy(dst[i:], dst[i+1:])` shift used by
`bucket.remove` and the eviction branch of `bucket.insert`: elements
`i+1 .. len-1` move one slot left and the final slot keeps its old value. -/
def copyWithin {α : Type} (l : List α) (i : Nat) : List α :=
  match (l.drop (i + 1)).getLast? with
  | none => l
  | some x => l.take i ++ l.drop (i + 1) ++ [x]

/-- Embeds a Go indexed slice write `a[i] = v`: `none` is the
index-out-of-range panic. -/
def arrSet {α : Type} (l : List α) (i : Nat) (v : α) : Option (List α) :=
  if i < l.length then some (l.set i v) else none

/-- Reads the live node prefix `b.nodes[0 .. size)` the way the Go loops
index it: `none` is a panic (index out of range, or nil dereference inside
the live prefix). -/
def liveNodes (nodes : List (Option Node)) (size : Nat) : Option (List Node) :=
  if size ≤ nodes.length then (nodes.take size).mapM id else none

/-- Search loop of `bucket.remove`: the scan runs from index `size-1`
downward and yields the first (i.e. highest) index whose node has the
wanted id. The outer `Option` is a panic, the inner is search failure. -/
def removeScan (nodes : List (Option Node)) (nodeID : List Nat) :
    Nat → Option (Option (Nat × Node))
  | 0 => some none
  | i + 1 => do
    let slot ← nodes.get? i
    let n ← slot
    if n.id = nodeID then return some (i, n) else removeScan nodes nodeID i

/-- Embeds `bucket.remove(nodeID, _)`: on a hit the live prefix shifts
left over the removed slot and `size` drops by one; returns the removed
node. -/
def Bucket.removeNode (b : Bucket) (nodeID : List Nat) :
    Option (Bucket × Option Node) := do
  match ← removeScan b.nodes nodeID b.size with
  | none => return (b, none)
  | some (i, n) =>
    return ({ b with nodes := copyWithin b.nodes i, size := b.size - 1 }, some n)

/-- Stale-candidate selection loop of `bucket.insert`, running over the
live prefix with its indices: the first entry with `pending > 1` seeds the
candidate and later entries with a strictly larger `pending` replace it.
`cond` is the (loop-invariant) check `now.After(n.seen.Add(b.expiry))`
that the source evaluates against the *new* node's timestamp. -/
def stalePick (cond : Bool) : List (Nat × Node) → Option (Nat × Node) →
    Option (Nat × Node)
  | [], acc => acc
  | (i, en) :: rest, acc =>
    let acc' :=
      if cond then
        match acc with
        | none => if en.pending > 1 then some (i, en) else none
        | some (si, sn) =>
          if en.pending > sn.pending then some (i, en) else some (si, sn)
      else acc
    stalePick cond rest acc'

/-- Embeds `bucket.stash(n)`: refresh the timestamp of the first cache
entry with the same id, else append the node to the promotion cache. -/
def stash (now : Nat) (n : Node) : List Node → List Node
  | [] => [n]
  | c :: rest =>
    if c.id = n.id then { c with seen := now } :: rest
    else c :: stash now n rest

/-- Pairs every element of a list with its index, starting at `i`. -/
def withIndexFrom {α : Type} (i : Nat) : List α → List (Nat × α)
  | [] => []
  | x :: xs => (i, x) :: withIndexFrom (i + 1) xs

/-- Embeds `bucket.insert(id, address, latency, testMode)`. Both
`time.Now()` reads inside the function are modelled by the single instant
`now`. `none` is a runtime panic. -/
def Bucket.insertNode (b : Bucket) (id : List Nat) (address latency : Nat)
    (testMode : Bool) (now : Nat) : Option (Bucket × Bool) := do
  let (b1, rn) ← b.removeNode id
  match rn with
  | some r =>
    let r' := { r with seen := now, latency := latency, testMode := testMode }
    let nodes ← arrSet b1.nodes b1.size (some r')
    return ({ b1 with nodes := nodes, size := b1.size + 1 }, true)
  | none =>
    let n : Node :=
      { id := id, address := address, seen := 0, pending := 0,
        latency := latency, failCount := 0, testMode := testMode }
    if b1.size ≠ K then
      let n' := { n with seen := now }
      let nodes ← arrSet b1.nodes b1.size (some n')
      return ({ b1 with nodes := nodes, size := b1.size + 1 }, true)
    else
      let live ← liveNodes b1.nodes b1.size
      let stale := stalePick (decide (now > n.seen + b1.expiry))
        (withIndexFrom 0 live) none
      match stale with
      | some (si, _) =>
        let nodes1 := copyWithin b1.nodes si
        let nodes2 ← arrSet nodes1 b1.size (some n)
        return ({ b1 with nodes := nodes2 }, true)
      | none =>
        return ({ b1 with cache := stash now n b1.cache }, true)

/-- Embeds `bucket.iterate` observed as a list: the live node prefix, read
totally (nil slots cannot occur in well-formed buckets and are skipped). -/
def Bucket.iterateNodes (b : Bucket) : List Node :=
  (b.nodes.take b.size).filterMap id

/-! ### Routing table (src/unnamed/part_004) -/

/-- Embeds the `routingTable` struct. -/
structure RoutingTable where
  localNode : Node
  buckets : List Bucket
deriving DecidableEq, Repr

/-- Embeds `newRoutingTable(localNode)`: `KEY_BITS` buckets, each with a
`K`-element nil node array. -/
def newRoutingTable (localNode : Node) : RoutingTable :=
  { localNode := localNode, buckets := List.replicate KEY_BITS newBucket }

/-- Embeds `routingTable.insert`: delegate to the bucket selected by
`bucketID(localID, id)`. `none` is a panic inside the bucket insert. -/
def RoutingTable.insertNode (t : RoutingTable) (id : List Nat)
    (address latency : Nat) (testMode : Bool) (now : Nat) :
    Option RoutingTable := do
  let idx := bucketID t.localNode.id id
  let b ← t.buckets.get? idx
  let (b', _) ← b.insertNode id address latency testMode now
  return { t with buckets := t.buckets.set idx b' }

/-- Gather loop of `closestN`: starting from the target's bucket the scan
alternates outward (+1, -1, +2, -2, ...) collecting each in-range bucket's
live nodes, stopping when `count` nodes are gathered or all `KEY_BITS`
in-range buckets have been scanned. The Go loop has no fuel; it provably
stops within `2*KEY_BITS + 2` iterations (by then every in-range offset
has been scanned), which the explicit `fuel` argument makes structural. -/
def closestNGather (buckets : List Bucket) (count : Nat) :
    Nat → Int → Nat → Nat → List Node → List Node
  | 0, _, _, _, acc => acc
  | fuel + 1, offset, i, scanned, acc =>
    let hit := offset > -1 ∧ offset < (KEY_BITS : Int)
    let acc' :=
      if hit then acc ++ (buckets.getD offset.toNat newBucket).iterateNodes
      else acc
    let scanned' := if hit then scanned + 1 else scanned
    if hit ∧ acc'.length ≥ count then acc'
    else if scanned' ≥ KEY_BITS then acc'
    else
      let offset' :=
        if i % 2 = 0 then offset + (i : Int) + 1 else offset - (i : Int) - 1
      closestNGather buckets count fuel offset' (i + 1) scanned' acc'

/-- Sort relation of `closestN`: larger common prefix with the target
first. -/
def distGE (target : List Nat) (a b : Node) : Prop :=
  distance b.id target ≤ distance a.id target

instance (target : List Nat) : DecidableRel (distGE target) :=
  fun _ _ => Nat.decLe _ _

instance (target : List Nat) : IsTotal Node (distGE target) :=
  ⟨fun a b => (Nat.le_total (distance b.id target) (distance a.id target))⟩

instance (target : List Nat) : IsTrans Node (distGE target) :=
  ⟨fun _ _ _ h h' => Nat.le_trans h' h⟩

/-- Embeds `routingTable.closestN(id, count)`: gather outward from the
target's bucket, sort by XOR closeness (largest common prefix first) and
truncate to `count`. Go's `sort.Slice` is an unspecified sorted
permutation; it is modelled by insertion sort over the same ordering. -/
def RoutingTable.closestN (t : RoutingTable) (id : List Nat) (count : Nat) :
    List Node :=
  let gathered := closestNGather t.buckets count (2 * KEY_BITS + 2)
    (bucketID t.localNode.id id) 0 0 []
  let sorted := gathered.insertionSort (distGE id)
  if sorted.length < count then sorted else sorted.take count

/-! ### Latency router (src/latency_router.go) -/

/-- defaultLatencyThreshold: 500 ms in nanoseconds. -/
def defaultLatencyThreshold : Nat := 500 * 1000000

/-- Embeds the `latencyRouter` struct (the DHT back-reference is passed
explicitly where needed). -/
structure LatencyRouter where
  threshold : Nat
deriving DecidableEq, Repr

/-- Embeds `NewLatencyRouter`: the threshold is always the default. -/
def newLatencyRouter : LatencyRouter :=
  { threshold := defaultLatencyThreshold }

/-- Sort relation of `GetBestRoutes`: ascending measured latency. -/
def latLE (a b : Node × Nat) : Prop := a.2 ≤ b.2

instance : DecidableRel latLE := fun a b => Nat.decLe a.2 b.2

instance : IsTotal (Node × Nat) latLE := ⟨fun a b => Nat.le_total a.2 b.2⟩

instance : IsTrans (Node × Nat) latLE := ⟨fun _ _ _ => Nat.le_trans⟩

/-- Embeds `latencyRouter.GetBestRoutes(target, count)`. The network
round-trip measurement `measureNodeLatency` is an oracle `measure` (in
test mode the source returns the node's recorded latency, i.e.
`measure = Node.latency`); each parallel probe writes its own slot of the
latency array, so the measured list is a plain map. -/
def LatencyRouter.GetBestRoutes (lr : LatencyRouter) (routing : RoutingTable)
    (measure : Node → Nat) (target : List Nat) (count : Nat) : List Node :=
  let nodes := routing.closestN target (count * 2)
  if nodes.length = 0 then []
  else
    let nodeLatencies := nodes.map (fun n => (n, measure n))
    let sorted := nodeLatencies.insertionSort latLE
    ((sorted.take count).filter (fun p => decide (p.2 < lr.threshold))).map
      Prod.fst

/-! ### In-memory storage (src/storage.go) -/

/-- Embeds the `Value` struct. -/
structure SValue where
  key : List Nat
  value : List Nat
  ttl : Nat
  created : Nat
  expires : Nat
deriving DecidableEq, Repr

/-- Embeds the `item` struct: `contains` is the value-hash set (hashes
modelled injectively by the value bytes themselves). -/
structure Item where
  contains : List (List Nat)
  values : List SValue
deriving DecidableEq, Repr

/-- The `storage.store` sync.Map, keyed by the (injectively modelled)
key hash. -/
abbrev StoreMap := List (List Nat × Item)

/-- Map lookup. -/
def storeLookup : StoreMap → List Nat → Option Item
  | [], _ => none
  | (k, it) :: rest, key => if k = key then some it else storeLookup rest key

/-- Map update of an existing binding. -/
def storeUpdate : StoreMap → List Nat → Item → StoreMap
  | [], _, _ => []
  | (k, it) :: rest, key, it' =>
    if k = key then (k, it') :: rest else (k, it) :: storeUpdate rest key it'

/-- Embeds `item.insert(hash, value)`: values already seen under this key
are deduplicated by their value hash. -/
def itemInsert (it : Item) (vbytes : List Nat) (value : SValue) : Item :=
  if vbytes ∈ it.contains then it
  else { contains := it.contains ++ [vbytes], values := it.values ++ [value] }

/-- Embeds `storage.Set(k, v, created, ttl)`; `now` is the `time.Now()`
read inside `Set` that computes the expiry. -/
def storageSet (st : StoreMap) (k v : List Nat) (created ttl now : Nat) :
    StoreMap :=
  let value : SValue :=
    { key := k, value := v, ttl := ttl, created := created, expires := now + ttl }
  match storeLookup st k with
  | some it => storeUpdate st k (itemInsert it v value)
  | none => st ++ [(k, { contains := [v], values := [value] })]

/-- Embeds `storage.Get(k, from)`: with a zero `from` all values are
returned; otherwise `index` counts the values created strictly before
`from` and the suffix from that position is returned. -/
def storageGet (st : StoreMap) (k : List Nat) (fromT : Nat) :
    List SValue × Bool :=
  match storeLookup st k with
  | none => ([], false)
  | some it =>
    if fromT = 0 then (it.values, true)
    else
      let index := it.values.countP (fun v => decide (v.created < fromT))
      if index ≥ it.values.length then ([], false)
      else (it.values.drop index, true)

/-- Embeds one pass of the `storage.cleanup` sweeper at instant `now`:
for each key it deletes the whole entry when some value of that key has
`expires.After(now)`. -/
def storageCleanup (st : StoreMap) (now : Nat) : StoreMap :=
  st.filter (fun kv => !(kv.2.values.any (fun v => decide (now < v.expires))))

/-! ### DHT Store entry point (src/unnamed/part_003) -/

/-- Outcome of `DHT.Store` as observed through the user callback and the
local state: the three rejection callbacks, or acceptance with the set of
STORE requests issued. -/
inductive StoreOutcome where
  | rejectedKey
  | rejectedValue
  | noNodes
  | accepted (localStored : Bool) (sentTo : List (List Nat))
deriving DecidableEq, Repr

/-- The DHT state that `DHT.Store` reads and writes synchronously: the
local id, routing table, local storage, and the log of issued STORE
requests (target node id, key). -/
structure DHTState where
  localID : List Nat
  routing : RoutingTable
  storage : StoreMap
  sent : List (List Nat × List Nat)
deriving DecidableEq, Repr

/-- Embeds the synchronous part of `DHT.Store(key, value, ttl, callback)`:
length validation, `closestN` fan-out selection, the local shortcut
`storage.Set`, and the issuing of one STORE request per remaining closest
node. `now` is the `created = time.Now()` read. The asynchronous ack
counting inside the response callback is not modelled. -/
def dhtStore (d : DHTState) (k v : List Nat) (ttl now : Nat) :
    StoreOutcome × DHTState :=
  if k.length ≠ KEY_BYTES then (.rejectedKey, d)
  else if v.length > VALUE_BYTES then (.rejectedValue, d)
  else
    let ns := d.routing.closestN k K
    if ns.length < 1 then (.noNodes, d)
    else
      let step : DHTState × Bool × List (List Nat) → Node →
          DHTState × Bool × List (List Nat) :=
        fun acc n =>
          if n.id = d.localID then
            ({ acc.1 with storage := storageSet acc.1.storage k v now ttl now },
             true, acc.2.2)
          else
            ({ acc.1 with sent := acc.1.sent ++ [(n.id, k)] },
             acc.2.1, acc.2.2 ++ [n.id])
      let r := ns.foldl step (d, false, [])
      (.accepted r.2.1 r.2.2, r.1)

/-! ### Journey (src/unnamed/part_007) -/

/-- One frontier slot: a candidate node and its stored distance to the
journey's destination (the live prefix of the `nodes`/`distances`
arrays). -/
structure JEntry where
  n : Node
  d : Nat
deriving DecidableEq, Repr

/-- Embeds the `journey` struct. The `visited`/`values` maps keyed by a
64-bit maphash are modelled injectively by the hashed bytes. -/
structure Journey where
  source : List Nat
  destination : List Nat
  visited : List (List Nat)
  valuesSeen : List (List Nat)
  outstanding : List (List Nat × Int)
  frontier : List JEntry
  remaining : Nat
  inflight : Nat
  completed : Bool
deriving DecidableEq, Repr

/-- Embeds `newJourney(source, destination, iterations)`. -/
def newJourney (source destination : List Nat) (iterations : Nat) : Journey :=
  { source := source, destination := destination, visited := [],
    valuesSeen := [], outstanding := [], frontier := [],
    remaining := iterations, inflight := 0, completed := false }

/-- Full-frontier replacement loop of `journey.add`: replace the first
slot (in array order) whose stored distance is strictly smaller than the
candidate's, returning the replaced node's id so its visited-set entry
can be deleted; leave the frontier unchanged when no slot is worse. -/
def replaceFirstWorse (x : JEntry) : List JEntry → List JEntry × Option (List Nat)
  | [] => ([], none)
  | e :: rest =>
    if e.d < x.d then (x :: rest, some e.n.id)
    else
      let (r, rm) := replaceFirstWorse x rest
      (e :: r, rm)

/-- Embeds one iteration of the `journey.add` loop for a single node. -/
def journeyAddOne (j : Journey) (n : Node) : Journey :=
  if n.id = j.source then j
  else
    let d := distance n.id j.destination
    if n.id ∈ j.visited then j
    else
      let jv := { j with visited := j.visited ++ [n.id] }
      if jv.frontier.length < K then
        { jv with frontier := jv.frontier ++ [⟨n, d⟩] }
      else
        match replaceFirstWorse ⟨n, d⟩ jv.frontier with
        | (f', some removedId) =>
          { jv with frontier := f', visited := jv.visited.erase removedId }
        | (f', none) => { jv with frontier := f' }

/-- Embeds `journey.add(nodes)`. -/
def journeyAdd (j : Journey) (ns : List Node) : Journey :=
  ns.foldl journeyAddOne j

/-- Sort relation of `journey.next` (`journey.Less`): strictly by distance
descending, ties broken by lower recorded latency. -/
def journeyLE (a b : JEntry) : Prop :=
  b.d < a.d ∨ (a.d = b.d ∧ a.n.latency ≤ b.n.latency)

instance : DecidableRel journeyLE := fun a b => by
  unfold journeyLE; infer_instance

instance : IsTotal JEntry journeyLE :=
  ⟨fun a b => by unfold journeyLE; omega⟩

instance : IsTrans JEntry journeyLE :=
  ⟨fun a b c hab hbc => by unfold journeyLE at *; omega⟩

/-- Embeds `journey.next(count)`: `none` models the nil return (completed,
no hops remaining, or empty frontier); otherwise the closest `available`
entries of the sorted frontier are handed out and removed. Go's
`sort.Sort` is an unspecified sorted permutation, modelled by insertion
sort over the same `Less` ordering. -/
def journeyNext (j : Journey) (count : Nat) : Option (List Node) × Journey :=
  if j.remaining = 0 ∨ j.frontier.length = 0 ∨ j.completed then (none, j)
  else
    let j1 := { j with remaining := j.remaining - 1 }
    let available := if j1.frontier.length < count then j1.frontier.length else count
    let j2 := { j1 with inflight := j1.inflight + available }
    let sorted := j2.frontier.insertionSort journeyLE
    (some ((sorted.take available).map JEntry.n),
      { j2 with frontier := sorted.drop available })

/-- One user-visible journey operation: an `add` of discovered nodes or a
`next` request for more routes. -/
inductive JOp where
  | add (ns : List Node)
  | next (count : Nat)

/-- Runs a journey through a sequence of interleaved `add`/`next` calls,
collecting every node id handed out by `next`, in order. -/
def runJourney : Journey → List JOp → Journey × List (List Nat)
  | j, [] => (j, [])
  | j, .add ns :: rest => runJourney (journeyAdd j ns) rest
  | j, .next c :: rest =>
    let step := journeyNext j c
    let ids := (step.1.getD []).map Node.id
    let out := runJourney step.2 rest
    (out.1, ids ++ out.2)

/-- Dedup invariant tying a journey state to the ids already handed out by
`next`: handed-out ids are distinct, frontier ids are distinct, both live
in the visited set, and no handed-out id is still in the frontier. -/
def JInv (j : Journey) (returned : List (List Nat)) : Prop :=
  returned.Nodup ∧
  (j.frontier.map (fun e => e.n.id)).Nodup ∧
  (∀ x ∈ returned, x ∈ j.visited) ∧
  (∀ e ∈ j.frontier, e.n.id ∈ j.visited) ∧
  (∀ x ∈ returned, ∀ e ∈ j.frontier, x ≠ e.n.id)

/-! ### Concrete fixtures used by counterexamples and witnesses -/

/-- A store holding one value: key `[1]`, value `[7]`, created at 100 with
ttl 1000 (so its expiry is 1100). -/
def c1store : StoreMap := storageSet [] [1] [7] 100 1000 100

/-- Member `i` of the C3 bucket: freshly seen at 50; member 3 has two
pending requests. -/
def c3node (i : Nat) : Node :=
  { id := [i], address := 0, seen := 50, pending := if i = 3 then 2 else 0,
    latency := 0, failCount := 0, testMode := false }

/-- A full bucket (size `K`) whose members were all seen at instant 50,
with a 60ns expiry window: at instant 70 none of them is past expiry. -/
def c3bucket : Bucket :=
  { size := K, expiry := 60,
    nodes := (List.range K).map (fun i => some (c3node i)), cache := [] }

/-- Member `i` of the C10 bucket; member 0 has five pending requests. -/
def c10node (i : Nat) : Node :=
  { id := [i], address := 0, seen := 0, pending := if i = 0 then 5 else 0,
    latency := 0, failCount := 0, testMode := false }

/-- A full bucket shaped exactly like `newRoutingTable` allocates it: a
`K`-element nodes array (here fully occupied, `size = K`) and the expiry
left at its zero value. -/
def c10bucket : Bucket :=
  { size := K, expiry := 0,
    nodes := (List.range K).map (fun i => some (c10node i)), cache := [] }

/-- C4 journey destination: the all-zero key. -/
def c4dest : List Nat := List.replicate 32 0

/-- C4 journey source id. -/
def c4src : List Nat := List.replicate 32 7

/-- Leading id byte of C4 frontier member `i`, chosen so that member 1 has
distance 2 to the destination, member 19 distance 0, and the rest
distance 4. -/
def c4firstByte (i : Nat) : Nat :=
  if i = 1 then 32 else if i = 19 then 128 else 8

/-- C4 frontier member `i` (32-byte id, distinct ids via the second
byte). -/
def c4node (i : Nat) : Node :=
  { id := c4firstByte i :: (i + 1) :: List.replicate 30 0, address := 0,
    seen := 0, pending := 0, latency := 0, failCount := 0, testMode := false }

/-- The C4 candidate node, at distance 3 from the destination: strictly
closer than the worst frontier member (distance 0) and strictly farther
than most others (distance 4). -/
def c4new : Node :=
  { id := 16 :: 100 :: List.replicate 30 0, address := 0, seen := 0,
    pending := 0, latency := 0, failCount := 0, testMode := false }

/-- A journey whose frontier was filled to capacity `K` by a real
`journey.add` call on the 20 C4 members. -/
def c4journey : Journey :=
  journeyAdd (newJourney c4src c4dest K) ((List.range K).map c4node)

/-- A store whose key `[1]` holds two values whose creation timestamps are
out of insertion order: created 10 (expires 110), then created 1
(expires 101). -/
def c6store : StoreMap :=
  storageSet (storageSet [] [1] [10] 10 100 10) [1] [20] 1 100 1

/-- A store whose key `[2]` holds two values in creation order: created 1,
then created 10. -/
def c6sorted : StoreMap :=
  storageSet (storageSet [] [2] [10] 1 100 1) [2] [20] 10 100 10

/-- A fresh journey with room in the frontier, used to witness the
amended C4 claim. -/
def c4wj : Journey := newJourney [5] [0] 3

/-- A candidate node for `c4wj` (distance 7 to destination `[0]`). -/
def c4wNode : Node :=
  { id := [1], address := 0, seen := 0, pending := 0, latency := 0,
    failCount := 0, testMode := false }

/-- The item stored under key `[2]` of `c6sorted`. -/
def c6item : Item :=
  { contains := [[10], [20]],
    values :=
      [{ key := [2], value := [10], ttl := 100, created := 1, expires := 101 },
       { key := [2], value := [20], ttl := 100, created := 10, expires := 110 }] }

/-- The all-zero 32-byte id. -/
def wid0 : List Nat := List.replicate 32 0

/-- A 32-byte id at XOR distance 7 from `wid0`. -/
def wid1 : List Nat := 1 :: List.replicate 31 0

/-- A local node with the all-zero id. -/
def wnode : Node :=
  { id := wid0, address := 0, seen := 0, pending := 0, latency := 0,
    failCount := 0, testMode := false }

/-- A freshly-constructed DHT state with an empty routing table. -/
def wDHT : DHTState :=
  { localID := wid0, routing := newRoutingTable wnode, storage := [],
    sent := [] }

/-- Conclusion of the amended C4 claim, as a predicate on the add call:
with room the candidate is appended; on a full frontier the first element
(in array order) that is strictly farther from the destination than the
candidate is replaced (so replacement only happens when some element —
equivalently the worst-ranked one — is strictly farther), and the frontier
is untouched when no element is strictly farther. -/
def C4Amended (j : Journey) (n : Node) : Prop :=
  (j.frontier.length < K →
    (journeyAddOne j n).frontier =
      j.frontier ++ [⟨n, distance n.id j.destination⟩]) ∧
  (¬ j.frontier.length < K →
    ((∀ e ∈ j.frontier, ¬ e.d < distance n.id j.destination) →
      (journeyAddOne j n).frontier = j.frontier) ∧
    (∀ l₁ e l₂, j.frontier = l₁ ++ e :: l₂ →
      (∀ x ∈ l₁, ¬ x.d < distance n.id j.destination) →
      e.d < distance n.id j.destination →
      (journeyAddOne j n).frontier =
        l₁ ++ ⟨n, distance n.id j.destination⟩ :: l₂))

/-! ### Properties of the XOR metric -/

theorem distAux_comm (a b : List Nat) : distAux a b = distAux b a := by
  induction a generalizing b with
  | nil => cases b <;> simp [distAux]
  | cons x xs ih =>
    cases b with
    | nil => simp [distAux]
    | cons y ys =>
      simp only [distAux, Nat.xor_comm x y]
      rw [ih]

theorem distAux_self (a : List Nat) : distAux a a = 8 * a.length := by
  induction a with
  | nil => simp [distAux]
  | cons x xs ih =>
    simp [distAux, ih, List.length_cons]
    ring

theorem leadingZeros8_le (b : Nat) : leadingZeros8 b ≤ 8 := by
  unfold leadingZeros8
  repeat' split
  all_goals omega

theorem distAux_le (a b : List Nat) : distAux a b ≤ 8 * a.length := by
  induction a generalizing b with
  | nil => simp [distAux]
  | cons x xs ih =>
    cases b with
    | nil => simp [distAux]
    | cons y ys =>
      simp only [distAux, List.length_cons]
      split
      · have := ih ys
        omega
      · have := leadingZeros8_le (x ^^^ y)
        omega

/-- Claim C8: for all 32-byte ids `a` and `b`, `distance(a, b)` equals
`distance(b, a)`, and `distance(a, a)` equals 256. -/
theorem distance_symm_and_self (a b : List Nat)
    (ha : a.length = KEY_BYTES) (hb : b.length = KEY_BYTES) :
    distance a b = distance b a ∧ distance a a = KEY_BITS := by
  refine ⟨distAux_comm a b, ?_⟩
  show distAux a a = KEY_BITS
  rw [distAux_self, ha]
  decide

theorem distance_symm_and_self_witness :
    wid0.length = KEY_BYTES ∧ wid1.length = KEY_BYTES ∧
    (distance wid0 wid1 = distance wid1 wid0 ∧ distance wid0 wid0 = KEY_BITS) :=
  ⟨by decide, by decide, distance_symm_and_self wid0 wid1 (by decide) (by decide)⟩

/-- Claim C7: for 32-byte ids, the routing table uses bucket index
`255 - distance(localID, n)`, clamped to 0 when the ids are identical
(distance 256); the index always lies in `[0, 255]`, and `insert` touches
no other bucket. -/
theorem bucket_index_spec (l t : List Nat)
    (hl : l.length = KEY_BYTES) (ht : t.length = KEY_BYTES) :
    (distance l t < KEY_BITS → bucketID l t = 255 - distance l t) ∧
    (l = t → bucketID l t = 0) ∧
    bucketID l t < KEY_BITS ∧
    (∀ (rt rt' : RoutingTable),
      RoutingTable.insertNode rt t 0 0 false 0 = some rt' →
      ∀ i, i ≠ bucketID rt.localNode.id t →
        rt'.buckets[i]? = rt.buckets[i]?) := by
  refine ⟨?_, ?_, ?_, ?_⟩
  · intro h
    unfold bucketID
    simp only []
    have : KEY_BITS - distance l t ≠ 0 := by
      unfold KEY_BITS at h ⊢
      omega
    rw [if_neg this]
    unfold KEY_BITS at h ⊢
    omega
  · intro h
    subst h
    unfold bucketID
    have : distance l l = KEY_BITS := by
      show distAux l l = KEY_BITS
      rw [distAux_self, hl]
      decide
    rw [this]
    simp
  · unfold bucketID
    simp only []
    have hle : distance l t ≤ KEY_BITS := by
      have := distAux_le l t
      rw [hl] at this
      refine le_trans this ?_
      decide
    unfold KEY_BITS at hle ⊢
    split <;> omega
  · intro rt rt' h i hi
    unfold RoutingTable.insertNode at h
    simp only [Option.bind_eq_bind, Option.bind_eq_some] at h
    obtain ⟨b, hb, p, hp, hrt'⟩ := h
    obtain ⟨b', flag⟩ := p
    simp only [Option.pure_def, Option.some.injEq] at hrt'
    subst hrt'
    simpa using List.getElem?_set_ne (Ne.symm hi)

theorem bucket_index_spec_witness :
    wid0.length = KEY_BYTES ∧ wid1.length = KEY_BYTES ∧
    ((distance wid0 wid1 < KEY_BITS →
        bucketID wid0 wid1 = 255 - distance wid0 wid1) ∧
      (wid0 = wid1 → bucketID wid0 wid1 = 0) ∧
      bucketID wid0 wid1 < KEY_BITS ∧
      (∀ (rt rt' : RoutingTable),
        RoutingTable.insertNode rt wid1 0 0 false 0 = some rt' →
        ∀ i, i ≠ bucketID rt.localNode.id wid1 →
          rt'.buckets[i]? = rt.buckets[i]?)) :=
  ⟨by decide, by decide, bucket_index_spec wid0 wid1 (by decide) (by decide)⟩

/-! ### Storage TTL semantics -/

/-- Claim C1 (code bug): the sweeper's expiry test is inverted. A value
stored at 100 with ttl 1000 should survive a sweep at 500 and be gone
after 1100 — instead the sweep at 500 deletes it (Get finds nothing),
while a sweep at 2000, after expiry, keeps it and Get still returns it. -/
theorem storage_cleanup_inverted :
    (100 < 500 ∧ 500 < 100 + 1000) ∧
    storageGet (storageCleanup c1store 500) [1] 0 = ([], false) ∧
    (100 + 1000 < 2000) ∧
    storageCleanup c1store 2000 = c1store ∧
    storageGet c1store [1] 0 ≠ ([], false) ∧
    (storageGet (storageCleanup c1store 2000) [1] 0).1 =
      [{ key := [1], value := [7], ttl := 1000, created := 100,
         expires := 1100 }] := by
  decide

/-! ### DHT.Store validation -/

/-- Claim C2: `DHT.Store` calls the user callback with an error and leaves
the state untouched (no local store, no request issued) for every key
whose length is not 32 and for every value longer than 32768 bytes, and
does not reject on these grounds otherwise. -/
theorem store_validation (d : DHTState) (k v : List Nat) (ttl now : Nat) :
    (k.length ≠ KEY_BYTES → dhtStore d k v ttl now = (.rejectedKey, d)) ∧
    (k.length = KEY_BYTES → v.length > VALUE_BYTES →
      dhtStore d k v ttl now = (.rejectedValue, d)) ∧
    (k.length = KEY_BYTES → v.length ≤ VALUE_BYTES →
      (dhtStore d k v ttl now).1 ≠ .rejectedKey ∧
      (dhtStore d k v ttl now).1 ≠ .rejectedValue) := by
  refine ⟨?_, ?_, ?_⟩
  · intro h
    unfold dhtStore
    rw [if_pos h]
  · intro hk hv
    unfold dhtStore
    rw [if_neg (by simp [hk]), if_pos hv]
  · intro hk hv
    unfold dhtStore
    rw [if_neg (by simp [hk]), if_neg (by omega)]
    simp only []
    constructor <;> {

      split
      · intro h
        cases h
      · intro h
        cases h
    }

theorem store_validation_witness :
    (([1, 2] : List Nat).length ≠ KEY_BYTES ∧
      dhtStore wDHT [1, 2] [9] 5 5 = (.rejectedKey, wDHT)) ∧
    (wid0.length = KEY_BYTES ∧
      (List.replicate 32769 0).length > VALUE_BYTES ∧
      dhtStore wDHT wid0 (List.replicate 32769 0) 5 5 =
        (.rejectedValue, wDHT)) ∧
    (wid0.length = KEY_BYTES ∧ ([9] : List Nat).length ≤ VALUE_BYTES ∧
      (dhtStore wDHT wid0 [9] 5 5).1 ≠ .rejectedKey ∧
      (dhtStore wDHT wid0 [9] 5 5).1 ≠ .rejectedValue) :=
  ⟨⟨by decide, (store_validation wDHT [1, 2] [9] 5 5).1 (by decide)⟩,
    ⟨by decide, by norm_num [VALUE_BYTES],
      (store_validation wDHT wid0 (List.replicate 32769 0) 5 5).2.1
        (by decide) (by norm_num [VALUE_BYTES])⟩,
    ⟨by decide, by decide,
      (store_validation wDHT wid0 [9] 5 5).2.2 (by decide) (by decide)⟩⟩

/-! ### Bucket insert on a full bucket -/

/-- Claim C3 (code bug): at instant 70 no member of `c3bucket` is past the
60ns expiry window (all were seen at 50), so per the claim the candidate
must go to the promotion cache and the members stay put. The source
instead tests staleness against the brand-new node's zero timestamp, takes
the eviction branch for the member with `pending = 2`, and crashes with an
out-of-range write (`none`). -/
theorem bucket_insert_stale_misjudged :
    (∀ n ∈ c3bucket.iterateNodes, ¬ (70 > n.seen + c3bucket.expiry)) ∧
    Bucket.insertNode c3bucket [99] 0 0 false 70 = none := by
  decide

/-- Claim C10: a full bucket (nodes array of length `K`, `size = K`) with
a member whose pending count exceeds 1 drives the eviction branch of
`bucket.insert` into the out-of-bounds write `nodes[K]` (`none`). -/
theorem bucket_insert_eviction_oob :
    c10bucket.nodes.length = K ∧ c10bucket.size = K ∧
    (∃ n ∈ c10bucket.iterateNodes, n.pending > 1) ∧
    Bucket.insertNode c10bucket [99] 0 0 false 1 = none := by
  decide

/-! ### Storage Get time filter -/

/-- Claim C6 counterexample: key `[1]` of `c6store` holds values created
at 10 then 1 (set in that order). `Get([1], 5)` returns exactly the value
created at 1 — earlier than `from` — and omits the stored value created at
10, refuting the claim for out-of-order creation timestamps. -/
theorem storage_get_from_counterexample :
    (5 ≠ 0) ∧
    { key := [1], value := [10], ttl := 100, created := 10,
      expires := 110 : SValue } ∈ (storageGet c6store [1] 0).1 ∧
    (storageGet c6store [1] 5).1 =
      [{ key := [1], value := [20], ttl := 100, created := 1,
         expires := 101 }] ∧
    (1 < 5 ∧ ¬ (10 : Nat) < 5) := by
  decide

theorem sorted_drop_countP (fromT : Nat) (l : List SValue)
    (h : l.Pairwise (fun a b => a.created ≤ b.created)) :
    l.drop (l.countP (fun v => decide (v.created < fromT))) =
      l.filter (fun v => decide (fromT ≤ v.created)) := by
  induction l with
  | nil => simp
  | cons v rest ih =>
    rw [List.pairwise_cons] at h
    obtain ⟨hv, hrest⟩ := h
    by_cases hc : v.created < fromT
    · rw [List.countP_cons_of_pos _ _ (by simpa using hc), List.drop_succ_cons,
        List.filter_cons_of_neg (by simp only [decide_eq_true_eq]; omega)]
      exact ih hrest
    · have h0 : rest.countP (fun v => decide (v.created < fromT)) = 0 := by
        rw [List.countP_eq_zero]
        intro b hb
        have := hv b hb
        simp only [decide_eq_true_eq]
        omega
      rw [List.countP_cons_of_neg _ _ (by simpa using hc), h0, List.drop_zero,
        List.filter_cons_of_pos (by simp only [decide_eq_true_eq]; omega)]
      congr 1
      symm
      rw [List.filter_eq_self]
      intro b hb
      have := hv b hb
      simp only [decide_eq_true_eq]
      omega

/-- Claim C6 amended: when the values stored under a key have
non-decreasing creation timestamps (insertion order matches time order),
`Get(key, from)` with a non-zero `from` returns exactly the stored values
with `created ≥ from`, and reports a hit exactly when that set is
non-empty. -/
theorem storage_get_from_amended (st : StoreMap) (k : List Nat)
    (fromT : Nat) (it : Item) (hf : fromT ≠ 0)
    (hit : storeLookup st k = some it)
    (hs : it.values.Pairwise (fun a b => a.created ≤ b.created)) :
    (storageGet st k fromT).1 =
      it.values.filter (fun v => decide (fromT ≤ v.created)) ∧
    ((storageGet st k fromT).2 = true ↔
      it.values.filter (fun v => decide (fromT ≤ v.created)) ≠ []) := by
  unfold storageGet
  rw [hit]
  simp only []
  rw [if_neg hf]
  have hdrop := sorted_drop_countP fromT it.values hs
  by_cases hidx : it.values.countP (fun v => decide (v.created < fromT)) ≥
      it.values.length
  · rw [if_pos hidx]
    have hall : ∀ v ∈ it.values, v.created < fromT := by
      have hcl : it.values.countP (fun v => decide (v.created < fromT)) =
          it.values.length :=
        Nat.le_antisymm (List.countP_le_length _) hidx
      intro v hvm
      have := List.countP_eq_length.mp hcl v hvm
      simpa using this
    have hfil : it.values.filter (fun v => decide (fromT ≤ v.created)) = [] := by
      rw [List.filter_eq_nil_iff]
      intro a ha
      have := hall a ha
      simp only [decide_eq_true_eq]
      omega
    simp [hfil]
  · rw [if_neg hidx]
    have hlen : (it.values.drop
        (it.values.countP (fun v => decide (v.created < fromT)))).length ≠ 0 := by
      rw [List.length_drop]
      omega
    constructor
    · exact hdrop
    · simp only [true_iff]
      rw [← hdrop]
      intro hnil
      rw [hnil] at hlen
      exact hlen rfl

theorem storage_get_from_amended_witness :
    (5 ≠ 0) ∧
    storeLookup c6sorted [2] = some c6item ∧
    c6item.values.Pairwise (fun a b => a.created ≤ b.created) ∧
    ((storageGet c6sorted [2] 5).1 =
        c6item.values.filter (fun v => decide (5 ≤ v.created)) ∧
      ((storageGet c6sorted [2] 5).2 = true ↔
        c6item.values.filter (fun v => decide (5 ≤ v.created)) ≠ [])) :=
  ⟨by decide, by decide, by decide,
    storage_get_from_amended c6sorted [2] 5 c6item (by decide) (by decide)
      (by decide)⟩

/-! ### Journey add on a full frontier -/

/-- Claim C4 counterexample: `c4journey` has a full frontier whose unique
worst-ranked member is node 19 at distance 0, and the candidate `c4new`
(distance 3) is strictly closer than it. Yet `journey.add` keeps node 19
and instead replaces node 1 (distance 2), the first member in array order
that ranks worse than the candidate — not the worst-ranked one. -/
theorem journey_add_counterexample :
    c4journey.frontier.length = K ∧
    (⟨c4node 19, 0⟩ : JEntry) ∈ c4journey.frontier ∧
    (∀ e ∈ c4journey.frontier, e.n ≠ c4node 19 → 0 < e.d) ∧
    0 < distance c4new.id c4journey.destination ∧
    (⟨c4node 19, 0⟩ : JEntry) ∈ (journeyAddOne c4journey c4new).frontier ∧
    (∀ e ∈ (journeyAddOne c4journey c4new).frontier, e.n ≠ c4node 1) ∧
    (⟨c4new, distance c4new.id c4journey.destination⟩ : JEntry) ∈
      (journeyAddOne c4journey c4new).frontier := by
  decide

theorem rfw_none (x : JEntry) (l : List JEntry) (h : ∀ e ∈ l, ¬ e.d < x.d) :
    replaceFirstWorse x l = (l, none) := by
  induction l with
  | nil => rfl
  | cons e rest ih =>
    unfold replaceFirstWorse
    rw [if_neg (h e (by simp))]
    rw [ih (fun e' he' => h e' (by simp [he']))]

theorem rfw_split (x : JEntry) (l₁ : List JEntry) (e : JEntry)
    (l₂ : List JEntry) (h₁ : ∀ y ∈ l₁, ¬ y.d < x.d) (h₂ : e.d < x.d) :
    replaceFirstWorse x (l₁ ++ e :: l₂) = (l₁ ++ x :: l₂, some e.n.id) := by
  induction l₁ with
  | nil =>
    simp only [List.nil_append]
    unfold replaceFirstWorse
    rw [if_pos h₂]
  | cons y ys ih =>
    simp only [List.cons_append]
    unfold replaceFirstWorse
    rw [if_neg (h₁ y (by simp))]
    rw [ih (fun y' hy' => h₁ y' (by simp [hy']))]

/-- Claim C4 amended: with room the candidate is appended; on a full
frontier the candidate replaces the first element in array order that is
strictly farther from the destination, and only when such a strictly
farther element exists (the frontier is untouched otherwise). -/
theorem journey_add_amended (j : Journey) (n : Node)
    (h1 : n.id ≠ j.source) (h2 : n.id ∉ j.visited) : C4Amended j n := by
  unfold C4Amended
  constructor
  · intro hroom
    unfold journeyAddOne
    rw [if_neg h1]
    simp only []
    rw [if_neg h2, if_pos hroom]
  · intro hfull
    constructor
    · intro hnone
      unfold journeyAddOne
      rw [if_neg h1]
      simp only []
      rw [if_neg h2, if_neg hfull,
        rfw_none ⟨n, distance n.id j.destination⟩ j.frontier hnone]
    · intro l₁ e l₂ heq hl₁ he
      unfold journeyAddOne
      rw [if_neg h1]
      simp only []
      rw [if_neg h2, if_neg hfull, heq,
        rfw_split ⟨n, distance n.id j.destination⟩ l₁ e l₂ hl₁ he]

theorem journey_add_amended_witness :
    c4wNode.id ≠ c4wj.source ∧ c4wNode.id ∉ c4wj.visited ∧
    C4Amended c4wj c4wNode :=
  ⟨by decide, by decide, journey_add_amended c4wj c4wNode (by decide) (by decide)⟩

/-! ### Latency-based route selection -/

theorem getBestRoutes_eq (lr : LatencyRouter) (rt : RoutingTable)
    (measure : Node → Nat) (target : List Nat) (count : Nat) :
    lr.GetBestRoutes rt measure target count =
      (((((rt.closestN target (count * 2)).map
          (fun n => (n, measure n))).insertionSort latLE).take count).filter
        (fun p => decide (p.2 < lr.threshold))).map Prod.fst := by
  unfold LatencyRouter.GetBestRoutes
  simp only []
  split
  · rename_i h
    have hnil : rt.closestN target (count * 2) = [] :=
      List.eq_nil_of_length_eq_zero (by omega)
    rw [hnil]
    simp
  · rfl

/-- Claim C9: `GetBestRoutes(target, count)` draws its candidates from
`closestN(target, 2*count)`, returns at most `count` nodes, sorted
ascending by each node's measured latency, all strictly below the router's
threshold — which is the 500 ms default. -/
theorem getBestRoutes_spec (rt : RoutingTable) (target : List Nat)
    (count : Nat) (measure : Node → Nat) :
    (∀ n ∈ newLatencyRouter.GetBestRoutes rt measure target count,
      n ∈ rt.closestN target (2 * count)) ∧
    (newLatencyRouter.GetBestRoutes rt measure target count).length ≤ count ∧
    ((newLatencyRouter.GetBestRoutes rt measure target count).map
      measure).Pairwise (fun a b => a ≤ b) ∧
    (∀ n ∈ newLatencyRouter.GetBestRoutes rt measure target count,
      measure n < newLatencyRouter.threshold) ∧
    newLatencyRouter.threshold = 500 * 1000000 := by
  have heq := getBestRoutes_eq newLatencyRouter rt measure target count
  set nodes := rt.closestN target (count * 2) with hnodes
  set nl := nodes.map (fun n => (n, measure n)) with hnl
  set sorted := nl.insertionSort latLE with hsortedDef
  set fil := (sorted.take count).filter
    (fun p => decide (p.2 < newLatencyRouter.threshold)) with hfil
  have hmem : ∀ p ∈ fil, p.2 = measure p.1 ∧ p.1 ∈ nodes := by
    intro p hp
    have hp1 : p ∈ sorted.take count := (List.mem_filter.mp hp).1
    have hp2 : p ∈ sorted := List.take_subset _ _ hp1
    have hp3 : p ∈ nl := (List.mem_insertionSort latLE).mp hp2
    rw [hnl] at hp3
    obtain ⟨n, hn, hpn⟩ := List.mem_map.mp hp3
    subst hpn
    exact ⟨rfl, hn⟩
  have hpwfil : fil.Pairwise latLE := by
    have hs : sorted.Pairwise latLE := List.sorted_insertionSort latLE nl
    exact List.Pairwise.sublist
      ((List.filter_sublist _).trans (List.take_sublist _ _)) hs
  refine ⟨?_, ?_, ?_, ?_, rfl⟩
  · intro n hn
    rw [heq] at hn
    obtain ⟨p, hp, hpn⟩ := List.mem_map.mp hn
    subst hpn
    have := (hmem p hp).2
    rw [hnodes, Nat.mul_comm count 2] at this
    exact this
  · rw [heq]
    rw [List.length_map]
    exact le_trans (List.length_filter_le _ _) (List.length_take_le _ _)
  · rw [heq, List.map_map]
    have hmaps : fil.map (measure ∘ Prod.fst) = fil.map Prod.snd :=
      List.map_congr_left (fun p hp => ((hmem p hp).1).symm)
    rw [hmaps]
    exact hpwfil.map Prod.snd (fun a b h => h)
  · intro n hn
    rw [heq] at hn
    obtain ⟨p, hp, hpn⟩ := List.mem_map.mp hn
    subst hpn
    have h2 := of_decide_eq_true (List.mem_filter.mp hp).2
    rw [(hmem p hp).1] at h2
    exact h2

/-! ### Journey dedup invariant -/

theorem nodup_replace {α : Type} {l₁ l₂ : List α} {a b : α}
    (h : (l₁ ++ a :: l₂).Nodup) (hb : b ∉ l₁ ++ a :: l₂) :
    (l₁ ++ b :: l₂).Nodup := by
  rw [List.nodup_append] at h ⊢
  obtain ⟨h₁, h₂, hd⟩ := h
  rw [List.nodup_cons] at h₂ ⊢
  simp only [List.mem_append, List.mem_cons, not_or] at hb
  refine ⟨h₁, ⟨hb.2.2, h₂.2⟩, ?_⟩
  intro x hx₁ hx₂
  rcases List.mem_cons.mp hx₂ with hxb | hxl₂
  · exact hb.1 (hxb ▸ hx₁)
  · exact hd hx₁ (List.mem_cons_of_mem _ hxl₂)

theorem rfw_cases (x : JEntry) (l : List JEntry) :
    replaceFirstWorse x l = (l, none) ∨
    ∃ l₁ e l₂, l = l₁ ++ e :: l₂ ∧
      replaceFirstWorse x l = (l₁ ++ x :: l₂, some e.n.id) := by
  induction l with
  | nil => left; rfl
  | cons e rest ih =>
    by_cases hc : e.d < x.d
    · right
      refine ⟨[], e, rest, rfl, ?_⟩
      unfold replaceFirstWorse
      rw [if_pos hc]
      rfl
    · rcases ih with hnone | ⟨l₁, e', l₂, heq, hrw⟩
      · left
        unfold replaceFirstWorse
        rw [if_neg hc, hnone]
      · right
        refine ⟨e :: l₁, e', l₂, by rw [heq, List.cons_append], ?_⟩
        unfold replaceFirstWorse
        rw [if_neg hc, hrw]
        rfl

theorem jinv_addOne (j : Journey) (n : Node) (returned : List (List Nat))
    (h : JInv j returned) : JInv (journeyAddOne j n) returned := by
  obtain ⟨hrn, hfn, hrv, hfv, hdisj⟩ := h
  unfold journeyAddOne
  by_cases h1 : n.id = j.source
  · rw [if_pos h1]
    exact ⟨hrn, hfn, hrv, hfv, hdisj⟩
  · rw [if_neg h1]
    simp only []
    by_cases h2 : n.id ∈ j.visited
    · rw [if_pos h2]
      exact ⟨hrn, hfn, hrv, hfv, hdisj⟩
    · rw [if_neg h2]
      have hnr : n.id ∉ returned := fun hc => h2 (hrv _ hc)
      have hnf : ∀ e ∈ j.frontier, n.id ≠ e.n.id :=
        fun e he hc => h2 (hc ▸ hfv e he)
      by_cases h3 : j.frontier.length < K
      · rw [if_pos h3]
        refine ⟨hrn, ?_, ?_, ?_, ?_⟩
        · rw [List.map_append, List.map_singleton]
          rw [List.nodup_append]
          refine ⟨hfn, List.nodup_singleton _, ?_⟩
          intro x hx hx'
          rw [List.mem_singleton] at hx'
          obtain ⟨e, he, hfe⟩ := List.mem_map.mp hx
          exact hnf e he ((hfe.trans hx').symm)
        · intro x hx
          exact List.mem_append_left _ (hrv x hx)
        · intro e he
          rcases List.mem_append.mp he with he' | he'
          · exact List.mem_append_left _ (hfv e he')
          · rw [List.mem_singleton] at he'
            subst he'
            exact List.mem_append_right _ (List.mem_singleton_self _)
        · intro x hx e he
          rcases List.mem_append.mp he with he' | he'
          · exact hdisj x hx e he'
          · rw [List.mem_singleton] at he'
            subst he'
            intro hc
            exact hnr (hc ▸ hx)
      · rw [if_neg h3]
        rcases rfw_cases ⟨n, distance n.id j.destination⟩ j.frontier with
          hnone | ⟨l₁, e, l₂, heq, hrw⟩
        · rw [hnone]
          refine ⟨hrn, hfn, ?_, ?_, hdisj⟩
          · intro x hx
            exact List.mem_append_left _ (hrv x hx)
          · intro e he
            exact List.mem_append_left _ (hfv e he)
        · rw [hrw]
          have hef : e ∈ j.frontier := heq ▸ List.mem_append_right _ (List.mem_cons_self _ _)
          have hne : n.id ≠ e.n.id := hnf e hef
          have heid : e.n.id ∈ j.visited := hfv e hef
          rw [heq] at hfn hfv hdisj
          have hnid : n.id ∉ (l₁ ++ e :: l₂).map (fun e => e.n.id) := by
            intro hc
            obtain ⟨e', he', hfe⟩ := List.mem_map.mp hc
            exact hnf e' (heq ▸ he') hfe.symm
          have hmapeq :
              (l₁ ++ (⟨n, distance n.id j.destination⟩ : JEntry) :: l₂).map
                (fun e => e.n.id) =
                l₁.map (fun e => e.n.id) ++ n.id :: l₂.map (fun e => e.n.id) := by
            simp
          have hmapeq' :
              (l₁ ++ e :: l₂).map (fun e => e.n.id) =
                l₁.map (fun e => e.n.id) ++ e.n.id :: l₂.map (fun e => e.n.id) := by
            simp
          refine ⟨hrn, ?_, ?_, ?_, ?_⟩
          · rw [hmapeq]
            rw [hmapeq'] at hfn
            refine nodup_replace hfn ?_
            rw [← hmapeq']
            exact hnid
          · intro x hx
            have hxv := hrv x hx
            have hxe : x ≠ e.n.id := hdisj x hx e
              (List.mem_append_right _ (List.mem_cons_self _ _))
            exact (List.mem_erase_of_ne hxe).mpr (List.mem_append_left _ hxv)
          · intro e' he'
            have hids : e.n.id ∉ l₁.map (fun e => e.n.id) ∧
                e.n.id ∉ l₂.map (fun e => e.n.id) := by
              rw [hmapeq'] at hfn
              rw [List.nodup_append] at hfn
              obtain ⟨_, hc, hd⟩ := hfn
              rw [List.nodup_cons] at hc
              exact ⟨fun hm => hd hm (List.mem_cons_self _ _), hc.1⟩
            rcases List.mem_append.mp he' with hm | hm
            · have : e'.n.id ≠ e.n.id := by
                intro hc
                exact hids.1 (hc ▸ List.mem_map_of_mem _ hm)
              exact (List.mem_erase_of_ne this).mpr
                (List.mem_append_left _ (hfv e' (List.mem_append_left _ hm)))
            · rcases List.mem_cons.mp hm with hm' | hm'
              · subst hm'
                exact (List.mem_erase_of_ne hne).mpr
                  (List.mem_append_right _ (List.mem_singleton_self _))
              · have : e'.n.id ≠ e.n.id := by
                  intro hc
                  exact hids.2 (hc ▸ List.mem_map_of_mem _ hm')
                exact (List.mem_erase_of_ne this).mpr
                  (List.mem_append_left _
                    (hfv e' (List.mem_append_right _ (List.mem_cons_of_mem _ hm'))))
          · intro x hx e' he'
            rcases List.mem_append.mp he' with hm | hm
            · exact hdisj x hx e' (List.mem_append_left _ hm)
            · rcases List.mem_cons.mp hm with hm' | hm'
              · subst hm'
                intro hc
                exact hnr (hc ▸ hx)
              · exact hdisj x hx e'
                  (List.mem_append_right _ (List.mem_cons_of_mem _ hm'))

theorem jinv_add (j : Journey) (ns : List Node) (returned : List (List Nat))
    (h : JInv j returned) : JInv (journeyAdd j ns) returned := by
  induction ns generalizing j with
  | nil => exact h
  | cons n rest ih => exact ih (journeyAddOne j n) (jinv_addOne j n returned h)

theorem jinv_next (j : Journey) (count : Nat) (returned : List (List Nat))
    (h : JInv j returned) :
    JInv (journeyNext j count).2
      (returned ++ ((journeyNext j count).1.getD []).map Node.id) := by
  obtain ⟨hrn, hfn, hrv, hfv, hdisj⟩ := h
  unfold journeyNext
  by_cases hstop : j.remaining = 0 ∨ j.frontier.length = 0 ∨ j.completed
  · rw [if_pos hstop]
    simp only [Option.getD_none, List.map_nil, List.append_nil]
    exact ⟨hrn, hfn, hrv, hfv, hdisj⟩
  · rw [if_neg hstop]
    simp only [Option.getD_some, List.map_map]
    set available := if j.frontier.length < count then j.frontier.length
      else count with hav
    set sorted := j.frontier.insertionSort journeyLE with hsorted
    have hperm : List.Perm sorted j.frontier :=
      List.perm_insertionSort journeyLE _
    have hpermids : List.Perm (sorted.map (fun e => e.n.id))
        (j.frontier.map (fun e => e.n.id)) := hperm.map _
    have hsn : (sorted.map (fun e => e.n.id)).Nodup := hpermids.nodup_iff.mpr hfn
    have htd : sorted.map (fun e => e.n.id) =
        (sorted.take available).map (fun e => e.n.id) ++
          (sorted.drop available).map (fun e => e.n.id) := by
      rw [← List.map_append, List.take_append_drop]
    have hmemf : ∀ e ∈ sorted, e ∈ j.frontier := fun e he => hperm.mem_iff.mp he
    refine ⟨?_, ?_, ?_, ?_, ?_⟩
    · rw [List.nodup_append]
      refine ⟨hrn, ?_, ?_⟩
      · have : ((sorted.take available).map (fun e => e.n.id)).Nodup := by
          rw [htd] at hsn
          exact (List.nodup_append.mp hsn).1
        simpa using this
      · intro x hx hx'
        simp only [List.mem_map, Function.comp] at hx'
        obtain ⟨e, he, hfe⟩ := hx'
        exact hdisj x hx e (hmemf e (List.take_subset _ _ he)) hfe.symm
    · have : ((sorted.drop available).map (fun e => e.n.id)).Nodup := by
        rw [htd] at hsn
        exact (List.nodup_append.mp hsn).2.1
      simpa using this
    · intro x hx
      rcases List.mem_append.mp hx with hm | hm
      · exact hrv x hm
      · simp only [List.mem_map, Function.comp] at hm
        obtain ⟨e, he, hfe⟩ := hm
        exact hfe ▸ hfv e (hmemf e (List.take_subset _ _ he))
    · intro e he
      exact hfv e (hmemf e (List.drop_subset _ _ he))
    · intro x hx e he
      rcases List.mem_append.mp hx with hm | hm
      · exact hdisj x hm e (hmemf e (List.drop_subset _ _ he))
      · simp only [List.mem_map, Function.comp] at hm
        obtain ⟨e₁, he₁, hfe₁⟩ := hm
        rw [htd] at hsn
        have hdisj2 := (List.nodup_append.mp hsn).2.2
        intro hc
        have hm1 : x ∈ (sorted.take available).map (fun e => e.n.id) := by
          rw [← hfe₁]
          exact List.mem_map_of_mem _ he₁
        have hm2 : x ∈ (sorted.drop available).map (fun e => e.n.id) := by
          rw [hc]
          exact List.mem_map_of_mem _ he
        exact hdisj2 hm1 hm2

theorem runJourney_nodup_aux (ops : List JOp) (j : Journey)
    (returned : List (List Nat)) (h : JInv j returned) :
    (returned ++ (runJourney j ops).2).Nodup := by
  induction ops generalizing j returned with
  | nil =>
    simp only [runJourney, List.append_nil]
    exact h.1
  | cons op rest ih =>
    cases op with
    | add ns =>
      simp only [runJourney]
      exact ih (journeyAdd j ns) returned (jinv_add j ns returned h)
    | next c =>
      simp only [runJourney]
      rw [← List.append_assoc]
      exact ih (journeyNext j c).2
        (returned ++ ((journeyNext j c).1.getD []).map Node.id)
        (jinv_next j c returned h)

/-- Claim C5: across any interleaved sequence of `add` and `next` calls on
one journey, the ids handed out by `next` never repeat. -/
theorem journey_next_dedup (source destination : List Nat)
    (iterations : Nat) (ops : List JOp) :
    (runJourney (newJourney source destination iterations) ops).2.Nodup := by
  have h := runJourney_nodup_aux ops (newJourney source destination iterations) []
    ⟨List.nodup_nil, by simp [newJourney], by simp, by simp [newJourney],
      by simp⟩
  simpa using h

end Emo
